import Mathlib

/-!
Shallow embedding of the export pipeline in src/lib/utils/exportHandlers.ts:
filename resolution (defaultFilenameExtractor, getPdfBytesAndName), the
tiered compression pipeline (compressPdfBytes), the annotated-PDF exporter
builder (buildAnnotatedPdfExporter) and the all-pages PNG archive export
(exportAllPagesAsPngZip).

JavaScript strings are modelled as lists of characters; byte buffers as
lists of naturals; external capabilities (the page renderer, the platform
canvas encoder, the file sink, the native compressor, fetch) as explicit
environment records of pure functions, with Option encoding a null result
or a thrown promise rejection as appropriate to each capability's contract.
-/

/-- Model of a JavaScript string: a list of characters. -/
abbrev JStr := List Char

/-- Model of a byte buffer (Uint8Array): a list of naturals. -/
abbrev Bytes := List Nat

/-- Lowercased characters of the literal suffix .pdf, used by the
case-insensitive suffix tests in exportHandlers.ts. -/
def pdfSuffixLower : JStr := ['.', 'p', 'd', 'f']

/-- Models filename.toLowerCase().endsWith of the .pdf suffix
(exportHandlers.ts line 15) and the case-insensitive anchored regex match
of lines 40 and 44: true iff the string ends with .pdf up to case. -/
def endsWithPdfCI (s : JStr) : Bool :=
  pdfSuffixLower.isSuffixOf (s.map Char.toLower)

/-- Models s.replace of the anchored case-insensitive .pdf regex with the
empty string (exportHandlers.ts lines 40 and 44): removes one trailing
.pdf suffix, case-insensitively, if present. -/
def stripPdfSuffixCI (s : JStr) : JStr :=
  if endsWithPdfCI s then s.take (s.length - 4) else s

/-- Models JavaScript String.prototype.split with a single-character
separator: split into the (always nonempty) list of segments between
occurrences of the separator. -/
def splitOnChar (sep : Char) : JStr → List JStr
  | [] => [[]]
  | c :: cs =>
    let rest := splitOnChar sep cs
    if c = sep then [] :: rest
    else
      match rest with
      | r :: rs => (c :: r) :: rs
      | [] => [[c]]

/-- Helper for the URL model: split the input at the first occurrence of
the three characters colon slash slash, returning the scheme before it
and the remainder after it, or none when the separator is absent. -/
def findSchemeSep : JStr → Option (JStr × JStr)
  | [] => none
  | c :: cs =>
    if c = ':' then
      match cs with
      | '/' :: '/' :: rest => some ([], rest)
      | _ => none
    else
      match findSchemeSep cs with
      | some (sch, rest) => some ((c :: sch), rest)
      | none => none

/-- Models the platform URL parser's pathname accessor (the new URL
constructor of exportHandlers.ts line 12 followed by .pathname, line 13)
for absolute hierarchical URLs: everything from the first slash after the
authority up to a query or fragment delimiter, defaulting to a single
slash when the authority is not followed by a path; none models the
constructor throwing on a string without a scheme separator. -/
def parseUrlPathname (url : JStr) : Option JStr :=
  match findSchemeSep url with
  | none => none
  | some (scheme, rest) =>
    if scheme = [] then none
    else
      let afterAuth := rest.dropWhile (fun c => !(c == '/' || c == '?' || c == '#'))
      match afterAuth with
      | '/' :: _ => some (afterAuth.takeWhile (fun c => !(c == '?' || c == '#')))
      | _ => some ['/']

/-- Embeds defaultFilenameExtractor (exportHandlers.ts lines 10 to 19):
take the last path segment of the URL (or document.pdf when the segment
is empty or the URL fails to parse) and ensure a .pdf suffix,
case-insensitively. -/
def defaultFilenameExtractor (url : JStr) : JStr :=
  match parseUrlPathname url with
  | none => "document.pdf".data
  | some pathname =>
    let filename :=
      match (splitOnChar '/' pathname).getLast? with
      | some seg => if seg = [] then "document.pdf".data else seg
      | none => "document.pdf".data
    if endsWithPdfCI filename then filename else filename ++ ".pdf".data

/-- Model of the currentFile argument of getPdfBytesAndName: either a URL
string or an in-memory File with a name and byte content. -/
inductive CurrentFile where
  | url (s : JStr)
  | file (name : JStr) (bytes : Bytes)

/-- Model of the fetch capability used by getPdfBytesAndName in the URL
case: some bytes for a successful response, none for a non-ok response. -/
abbrev FetchCap := JStr → Option Bytes

/-- Embeds getPdfBytesAndName (exportHandlers.ts lines 25 to 48): resolve
bytes and a base name from a URL (via fetch and a filename extractor,
defaulting to defaultFilenameExtractor) or from an in-memory file (via
its inherent name); in both cases one trailing .pdf suffix is stripped
case-insensitively; a failed fetch throws. -/
def getPdfBytesAndName (fetch : FetchCap) (currentFile : CurrentFile)
    (filenameExtractor : Option (JStr → JStr)) : Except JStr (Bytes × JStr) :=
  match currentFile with
  | .url s =>
    match fetch s with
    | none => .error "Failed to fetch PDF".data
    | some bytes =>
      let extractor := filenameExtractor.getD defaultFilenameExtractor
      .ok (bytes, stripPdfSuffixCI (extractor s))
  | .file name bytes => .ok (bytes, stripPdfSuffixCI name)

/-- The raw filename getPdfBytesAndName strips the suffix from: the file's
inherent name, or the extractor's output in the URL case. Statement-side
helper for relating the returned base name to its source name. -/
def sourceNameOf (currentFile : CurrentFile)
    (filenameExtractor : Option (JStr → JStr)) : JStr :=
  match currentFile with
  | .url s => (filenameExtractor.getD defaultFilenameExtractor) s
  | .file name _ => name

/-- Environment of compressPdfBytes (exportHandlers.ts lines 93 to 114):
the host-environment flag isTauri, the native compress_pdf invocation
(none models the invoke call throwing), and the pdf-lib load-and-save
fallback (none models load or save throwing). -/
structure CompressEnv where
  isTauri : Bool
  nativeCompress : Bytes → Nat → Option Bytes
  pdfLibSave : Bytes → Option Bytes

/-- Embeds compressPdfBytes (exportHandlers.ts lines 93 to 114): in a
native host, try the native tier and catch any failure; then try the
pdf-lib tier and catch any failure; finally return the original bytes.
The Except result records that no tier's failure escapes to the caller. -/
def compressPdfBytes (env : CompressEnv) (pdfBytes : Bytes) (quality : Nat) :
    Except JStr Bytes :=
  let nativeResult : Option Bytes :=
    if env.isTauri then
      match env.nativeCompress pdfBytes quality with
      | some compressed => some compressed
      | none => none
    else none
  match nativeResult with
  | some compressed => .ok compressed
  | none =>
    match env.pdfLibSave pdfBytes with
    | some saved => .ok saved
    | none => .ok pdfBytes

/-- C1: For every environment, input byte buffer and quality in the range 1 to
100, compressPdfBytes never throws: it always returns ok with some byte
buffer, even when the native tier is unavailable or fails and the library
tier also fails. -/
theorem compressPdfBytes_never_throws (env : CompressEnv) (pdfBytes : Bytes)
    (quality : Nat) (hq1 : 1 ≤ quality) (hq2 : quality ≤ 100) :
    ∃ out, compressPdfBytes env pdfBytes quality = .ok out := by
  unfold compressPdfBytes
  cases h1 : (if env.isTauri then
      match env.nativeCompress pdfBytes quality with
      | some compressed => some compressed
      | none => none
    else none) with
  | some c => exact ⟨c, by simp [h1]⟩
  | none =>
    cases h2 : env.pdfLibSave pdfBytes with
    | some s => exact ⟨s, by simp [h1, h2]⟩
    | none => exact ⟨pdfBytes, by simp [h1, h2]⟩

/-- Witness for compressPdfBytes_never_throws at a concrete environment
where both fallible tiers fail, with quality 75. -/
theorem compressPdfBytes_never_throws_witness :
    ∃ out, compressPdfBytes ⟨true, fun _ _ => none, fun _ => none⟩ [1, 2, 3] 75 = .ok out :=
  compressPdfBytes_never_throws ⟨true, fun _ _ => none, fun _ => none⟩ [1, 2, 3] 75
    (by decide) (by decide)

/-- C9: If the native tier is unavailable or fails and the library tier fails,
compressPdfBytes returns the original input bytes unchanged. -/
theorem compressPdfBytes_passthrough (env : CompressEnv) (pdfBytes : Bytes)
    (quality : Nat)
    (hnative : env.isTauri = false ∨ env.nativeCompress pdfBytes quality = none)
    (hlib : env.pdfLibSave pdfBytes = none) :
    compressPdfBytes env pdfBytes quality = .ok pdfBytes := by
  unfold compressPdfBytes
  rcases hnative with h | h <;> simp [h, hlib]

/-- Witness for compressPdfBytes_passthrough: with the native host absent
and the library tier failing, the input bytes come back unchanged. -/
theorem compressPdfBytes_passthrough_witness :
    compressPdfBytes ⟨false, fun _ _ => some [], fun _ => none⟩ [7, 7, 7] 50 = .ok [7, 7, 7] :=
  compressPdfBytes_passthrough ⟨false, fun _ _ => some [], fun _ => none⟩ [7, 7, 7] 50
    (Or.inl rfl) rfl

/-- C8: With the default filename extractor, getPdfBytesAndName on the URL
https colon slash slash x slash y slash report.PDF yields base name
report (the .pdf suffix is matched case-insensitively), and on a URL
whose path has no final segment it yields base name document. -/
theorem getPdfBytesAndName_default_extractor_examples :
    getPdfBytesAndName (fun _ => some []) (.url "https://x/y/report.PDF".data) none
        = .ok ([], "report".data)
    ∧ getPdfBytesAndName (fun _ => some []) (.url "https://x/".data) none
        = .ok ([], "document".data) := by
  exact ⟨rfl, rfl⟩

/-- Stripping one .pdf suffix leaves a name still ending in .pdf exactly
when the original ended in a doubled .pdf.pdf; contrapositive direction:
a source name with no doubled suffix yields a .pdf-free result. -/
theorem stripPdfSuffixCI_pdf_free (s : JStr)
    (h : (pdfSuffixLower ++ pdfSuffixLower).isSuffixOf (s.map Char.toLower) = false) :
    endsWithPdfCI (stripPdfSuffixCI s) = false := by
  unfold stripPdfSuffixCI
  by_cases he : endsWithPdfCI s
  · simp only [he, if_true]
    by_contra habs
    rw [Bool.not_eq_false] at habs
    unfold endsWithPdfCI at he habs
    rw [List.isSuffixOf_iff_suffix] at he habs
    obtain ⟨u, hu⟩ := he
    have hlen : (s.map Char.toLower).length = s.length := List.length_map ..
    have hul : u.length = s.length - 4 := by
      have := congrArg List.length hu
      simp [pdfSuffixLower] at this
      omega
    have htake : (s.take (s.length - 4)).map Char.toLower = u := by
      rw [List.map_take, ← hu, List.take_left' hul]
    rw [htake] at habs
    obtain ⟨v, hv⟩ := habs
    have : (pdfSuffixLower ++ pdfSuffixLower).isSuffixOf (s.map Char.toLower) = true := by
      rw [List.isSuffixOf_iff_suffix]
      exact ⟨v, by rw [← hu, ← hv, List.append_assoc]⟩
    rw [this] at h
    exact absurd h (by decide)
  · simp only [Bool.not_eq_true] at he
    simp [he]

/-- C7 counterexample: for the in-memory file named a.pdf.pdf, the base
name returned by getPdfBytesAndName is a.pdf, which still carries a .pdf
extension, so the returned base name is not extension-free and appending
an output extension produces a double extension. -/
theorem getPdfBytesAndName_not_extension_free :
    getPdfBytesAndName (fun _ => some []) (.file "a.pdf.pdf".data []) none
        = .ok ([], "a.pdf".data)
    ∧ endsWithPdfCI "a.pdf".data = true :=
  ⟨rfl, rfl⟩

/-- C7 amended: for every document source accepted by getPdfBytesAndName,
the returned base name is free of a trailing .pdf extension provided the
source filename (the file's inherent name, or the extractor output in the
URL case) does not end in a doubled .pdf.pdf suffix; exactly one trailing
.pdf suffix is stripped, case-insensitively. -/
theorem getPdfBytesAndName_base_pdf_free (fetch : FetchCap)
    (currentFile : CurrentFile) (filenameExtractor : Option (JStr → JStr))
    (bytes : Bytes) (base : JStr)
    (hok : getPdfBytesAndName fetch currentFile filenameExtractor = .ok (bytes, base))
    (hsrc : (pdfSuffixLower ++ pdfSuffixLower).isSuffixOf
        ((sourceNameOf currentFile filenameExtractor).map Char.toLower) = false) :
    endsWithPdfCI base = false := by
  cases currentFile with
  | url s =>
    simp only [getPdfBytesAndName, sourceNameOf] at hok hsrc
    cases hf : fetch s with
    | none => rw [hf] at hok; exact absurd hok (by simp)
    | some b =>
      rw [hf] at hok
      simp only [Except.ok.injEq, Prod.mk.injEq] at hok
      obtain ⟨-, hbase⟩ := hok
      subst hbase
      exact stripPdfSuffixCI_pdf_free _ hsrc
  | file name b =>
    simp only [getPdfBytesAndName, sourceNameOf] at hok hsrc
    simp only [Except.ok.injEq, Prod.mk.injEq] at hok
    obtain ⟨-, hbase⟩ := hok
    subst hbase
    exact stripPdfSuffixCI_pdf_free _ hsrc

/-- Witness for getPdfBytesAndName_base_pdf_free at the in-memory file
named report.pdf: the returned base name report has no .pdf suffix. -/
theorem getPdfBytesAndName_base_pdf_free_witness :
    endsWithPdfCI "report".data = false :=
  getPdfBytesAndName_base_pdf_free (fun _ => some [])
    (.file "report.pdf".data []) none [] "report".data rfl rfl

/-- Model of the pdfViewer capability consumed by buildAnnotatedPdfExporter
(exportHandlers.ts lines 59 to 62): the annotation-presence query and the
merged-canvas renderer. Canvases are identified by naturals; none models a
null canvas. -/
structure PdfViewer where
  pageHasAnnotations : Nat → Bool
  getMergedCanvasForPage : Nat → Option Nat

/-- Result of buildAnnotatedPdfExporter: the PDFExporter accumulator state
(original bytes and the page-to-canvas mapping in insertion order),
together with the trace of page numbers for which each pdfViewer
capability was invoked, recording exactly which queries the loop makes. -/
structure BuildResult where
  originalPdf : Bytes
  canvases : List (Nat × Nat)
  annQueries : List Nat
  canvasCalls : List Nat
deriving DecidableEq

/-- Body of the per-page loop of buildAnnotatedPdfExporter
(exportHandlers.ts lines 71 to 79): query pageHasAnnotations
unconditionally; when it returns true or the capture-all flag is set,
request the merged canvas and, when one is returned, record it in the
mapping. -/
def buildStep (pdfViewer : PdfViewer) (captureAllPages : Bool) (pageNumber : Nat)
    (acc : BuildResult) : BuildResult :=
  let acc1 := { acc with annQueries := acc.annQueries ++ [pageNumber] }
  if pdfViewer.pageHasAnnotations pageNumber || captureAllPages then
    let acc2 := { acc1 with canvasCalls := acc1.canvasCalls ++ [pageNumber] }
    match pdfViewer.getMergedCanvasForPage pageNumber with
    | some mergedCanvas => { acc2 with canvases := acc2.canvases ++ [(pageNumber, mergedCanvas)] }
    | none => acc2
  else acc1

/-- The per-page loop of buildAnnotatedPdfExporter over a list of page
numbers. -/
def buildLoop (pdfViewer : PdfViewer) (captureAllPages : Bool) :
    List Nat → BuildResult → BuildResult
  | [], acc => acc
  | pageNumber :: rest, acc =>
    buildLoop pdfViewer captureAllPages rest (buildStep pdfViewer captureAllPages pageNumber acc)

/-- Embeds buildAnnotatedPdfExporter (exportHandlers.ts lines 57 to 82):
set the original bytes, then run the per-page loop over pages 1 to
totalPages with the capture-all flag defaulting to false. -/
def buildAnnotatedPdfExporter (pdfBytes : Bytes) (pdfViewer : PdfViewer)
    (totalPages : Nat) (options : Option Bool) : BuildResult :=
  let captureAllPages := options.getD false
  buildLoop pdfViewer captureAllPages (List.range' 1 totalPages)
    { originalPdf := pdfBytes, canvases := [], annQueries := [], canvasCalls := [] }

/-- One loop step always appends the page to the annotation-query trace. -/
theorem buildStep_annQueries (pdfViewer : PdfViewer) (captureAllPages : Bool)
    (pageNumber : Nat) (acc : BuildResult) :
    (buildStep pdfViewer captureAllPages pageNumber acc).annQueries
      = acc.annQueries ++ [pageNumber] := by
  unfold buildStep
  split
  · split <;> rfl
  · rfl

/-- One loop step appends the page to the canvas-call trace exactly when
the page has annotations or the capture-all flag is set. -/
theorem buildStep_canvasCalls (pdfViewer : PdfViewer) (captureAllPages : Bool)
    (pageNumber : Nat) (acc : BuildResult) :
    (buildStep pdfViewer captureAllPages pageNumber acc).canvasCalls
      = acc.canvasCalls
        ++ (if pdfViewer.pageHasAnnotations pageNumber || captureAllPages
            then [pageNumber] else []) := by
  unfold buildStep
  split
  · rename_i hcond
    split <;> simp [hcond]
  · rename_i hcond
    simp [Bool.not_eq_true] at hcond
    simp [hcond]

/-- Pages recorded in the mapping by one loop step: either already
present, or the processed page when it needed capture. -/
theorem buildStep_canvases_fst (pdfViewer : PdfViewer) (captureAllPages : Bool)
    (pageNumber : Nat) (acc : BuildResult) (q : Nat)
    (hq : q ∈ (buildStep pdfViewer captureAllPages pageNumber acc).canvases.map Prod.fst) :
    q ∈ acc.canvases.map Prod.fst
      ∨ (q = pageNumber
          ∧ (pdfViewer.pageHasAnnotations pageNumber || captureAllPages) = true) := by
  unfold buildStep at hq
  by_cases hcond : (pdfViewer.pageHasAnnotations pageNumber || captureAllPages) = true
  · rw [if_pos hcond] at hq
    cases hc : pdfViewer.getMergedCanvasForPage pageNumber with
    | some mergedCanvas =>
      rw [hc] at hq
      simp only [List.map_append, List.mem_append] at hq
      rcases hq with h | h
      · exact Or.inl h
      · simp at h
        exact Or.inr ⟨h, hcond⟩
    | none =>
      rw [hc] at hq
      exact Or.inl hq
  · rw [if_neg hcond] at hq
    exact Or.inl hq

/-- The loop's annotation-query trace is the whole page list, regardless
of the capture-all flag and of the viewer's answers. -/
theorem buildLoop_annQueries (pdfViewer : PdfViewer) (captureAllPages : Bool)
    (pages : List Nat) :
    ∀ acc, (buildLoop pdfViewer captureAllPages pages acc).annQueries
        = acc.annQueries ++ pages := by
  induction pages with
  | nil => intro acc; simp [buildLoop]
  | cons p ps ih =>
    intro acc
    rw [buildLoop, ih, buildStep_annQueries]
    simp

/-- The loop's canvas-call trace is the page list filtered by the capture
condition. -/
theorem buildLoop_canvasCalls (pdfViewer : PdfViewer) (captureAllPages : Bool)
    (pages : List Nat) :
    ∀ acc, (buildLoop pdfViewer captureAllPages pages acc).canvasCalls
        = acc.canvasCalls
          ++ pages.filter (fun p => pdfViewer.pageHasAnnotations p || captureAllPages) := by
  induction pages with
  | nil => intro acc; simp [buildLoop]
  | cons p ps ih =>
    intro acc
    rw [buildLoop, ih, buildStep_canvasCalls]
    by_cases hcond : (pdfViewer.pageHasAnnotations p || captureAllPages) = true
    · simp [hcond, List.filter_cons]
    · simp only [Bool.not_eq_true] at hcond
      simp [hcond, List.filter_cons]

/-- Pages in the mapping after the loop: already present, or in the page
list and satisfying the capture condition. -/
theorem buildLoop_canvases_fst (pdfViewer : PdfViewer) (captureAllPages : Bool)
    (pages : List Nat) :
    ∀ acc q, q ∈ (buildLoop pdfViewer captureAllPages pages acc).canvases.map Prod.fst →
      q ∈ acc.canvases.map Prod.fst
        ∨ (q ∈ pages ∧ (pdfViewer.pageHasAnnotations q || captureAllPages) = true) := by
  induction pages with
  | nil => intro acc q hq; exact Or.inl hq
  | cons p ps ih =>
    intro acc q hq
    rw [buildLoop] at hq
    rcases ih _ q hq with h | ⟨hmem, hcond⟩
    · rcases buildStep_canvases_fst pdfViewer captureAllPages p acc q h with h2 | ⟨heq, hcond⟩
      · exact Or.inl h2
      · exact Or.inr ⟨by simp [heq], heq ▸ hcond⟩
    · exact Or.inr ⟨by simp [hmem], hcond⟩

/-- C6 counterexample: with the capture-all-pages flag set, the
per-page annotation-presence query IS still made: for a one-page document
whose viewer reports no annotations anywhere, the query trace is the
page list, not empty, refuting the claim that the query is not made. -/
theorem buildAnnotatedPdfExporter_captureAll_still_queries :
    (buildAnnotatedPdfExporter [] ⟨fun _ => false, fun _ => none⟩ 1 (some true)).annQueries
      = [1] := rfl

/-- C6 amended: with the capture-all-pages flag set,
buildAnnotatedPdfExporter still makes the annotation-presence query for
every page 1 to totalPages, but its result is ignored: every page's
merged canvas is requested regardless of pageHasAnnotations. -/
theorem buildAnnotatedPdfExporter_captureAll_requests_all (pdfBytes : Bytes)
    (pdfViewer : PdfViewer) (totalPages : Nat) :
    (buildAnnotatedPdfExporter pdfBytes pdfViewer totalPages (some true)).annQueries
        = List.range' 1 totalPages
    ∧ (buildAnnotatedPdfExporter pdfBytes pdfViewer totalPages (some true)).canvasCalls
        = List.range' 1 totalPages := by
  constructor
  · simp only [buildAnnotatedPdfExporter, Option.getD_some]
    rw [buildLoop_annQueries]
    simp
  · simp only [buildAnnotatedPdfExporter, Option.getD_some]
    rw [buildLoop_canvasCalls]
    simp

/-- C10: with the capture-all-pages flag unset, a page the viewer reports
as having no annotations never has its merged canvas requested and is
absent from the resulting mapping; and every page in the mapping lies in
the interval from 1 to totalPages. -/
theorem buildAnnotatedPdfExporter_frame (pdfBytes : Bytes) (pdfViewer : PdfViewer)
    (totalPages : Nat) (p : Nat)
    (hp : pdfViewer.pageHasAnnotations p = false) :
    p ∉ (buildAnnotatedPdfExporter pdfBytes pdfViewer totalPages none).canvasCalls
    ∧ p ∉ (buildAnnotatedPdfExporter pdfBytes pdfViewer totalPages none).canvases.map Prod.fst
    ∧ ∀ q ∈ (buildAnnotatedPdfExporter pdfBytes pdfViewer totalPages none).canvases.map Prod.fst,
        1 ≤ q ∧ q ≤ totalPages := by
  refine ⟨?_, ?_, ?_⟩
  · simp only [buildAnnotatedPdfExporter, Option.getD_none]
    rw [buildLoop_canvasCalls]
    simp [List.mem_filter, hp]
  · intro hmem
    simp only [buildAnnotatedPdfExporter, Option.getD_none] at hmem
    rcases buildLoop_canvases_fst _ _ _ _ _ hmem with h | ⟨-, hcond⟩
    · simp at h
    · rw [hp] at hcond
      simp at hcond
  · intro q hq
    simp only [buildAnnotatedPdfExporter, Option.getD_none] at hq
    rcases buildLoop_canvases_fst _ _ _ _ _ hq with h | ⟨hmem, -⟩
    · simp at h
    · rw [List.mem_range'_1] at hmem
      omega

/-- Witness for buildAnnotatedPdfExporter_frame: a three-page document
whose viewer reports annotations only on page 1; page 2 is never
rendered and never mapped, and all mapped pages lie in 1 to 3. -/
theorem buildAnnotatedPdfExporter_frame_witness :
    2 ∉ (buildAnnotatedPdfExporter [] ⟨fun q => q == 1, fun q => some q⟩ 3 none).canvasCalls
    ∧ 2 ∉ (buildAnnotatedPdfExporter [] ⟨fun q => q == 1, fun q => some q⟩ 3 none).canvases.map Prod.fst
    ∧ ∀ q ∈ (buildAnnotatedPdfExporter [] ⟨fun q => q == 1, fun q => some q⟩ 3 none).canvases.map Prod.fst,
        1 ≤ q ∧ q ≤ 3 :=
  buildAnnotatedPdfExporter_frame [] ⟨fun q => q == 1, fun q => some q⟩ 3 2 (by decide)

/-- Environment of exportAllPagesAsPngZip (exportHandlers.ts lines 162 to
211): the merged-canvas renderer (none models a null canvas), the
platform canvas.toBlob encoder behind canvasToPngBlob (none models the
encode rejection of exportHandlers.ts line 123), and the FileSink result
of PDFExporter.exportFile (true is saved, false is user cancellation). -/
structure RasterEnv where
  getMergedCanvasForPage : Nat → Option Nat
  canvasToPngBlob : Nat → Option Bytes
  exportFileSaved : Bool

/-- Fatal error conditions of the archive export: the canvas encoder
rejecting (exportHandlers.ts line 123) and the empty-archive condition
(line 190). -/
inductive ExportError where
  | canvasEncodeFailed
  | emptyArchive
deriving DecidableEq

/-- Mutable state of the archive-export loop: the archive entries added
so far (name and bytes, in insertion order), the progress values reported
so far, and the filesAdded counter of exportHandlers.ts line 171. -/
structure ZipState where
  entries : List (JStr × Bytes)
  progress : List Nat
  filesAdded : Nat
deriving DecidableEq

/-- Deterministic archive entry name of exportHandlers.ts line 181: the
word page, the decimal page number, and the suffix .png. -/
def pngEntryName (page : Nat) : JStr :=
  "page".data ++ (toString page).data ++ ".png".data

/-- Models Math.round of page divided by totalPages times 80
(exportHandlers.ts line 185) under exact arithmetic: round half up of
160 times page over 2 times totalPages. -/
def progressValue (page totalPages : Nat) : Nat :=
  (160 * page + totalPages) / (2 * totalPages)

/-- Loop body for a successfully rendered and encoded page
(exportHandlers.ts lines 179 to 186): add the entry, bump filesAdded,
and report loop progress when a callback is present. -/
def zipSuccessStep (totalPages : Nat) (hasProgress : Bool) (page : Nat)
    (pngBytes : Bytes) (st : ZipState) : ZipState :=
  let st1 := { st with
    entries := st.entries ++ [(pngEntryName page, pngBytes)],
    filesAdded := st.filesAdded + 1 }
  if hasProgress then
    { st1 with progress := st1.progress ++ [progressValue page totalPages] }
  else st1

/-- The per-page loop of exportAllPagesAsPngZip (exportHandlers.ts lines
173 to 187): a null canvas skips the page (including its progress
report); an encode rejection aborts the whole export with
canvasEncodeFailed; a success adds the entry and reports progress. -/
def zipLoop (env : RasterEnv) (totalPages : Nat) (hasProgress : Bool) :
    List Nat → ZipState → ZipState × Option ExportError
  | [], st => (st, none)
  | page :: rest, st =>
    match env.getMergedCanvasForPage page with
    | none => zipLoop env totalPages hasProgress rest st
    | some canvas =>
      match env.canvasToPngBlob canvas with
      | none => (st, some .canvasEncodeFailed)
      | some pngBytes =>
        zipLoop env totalPages hasProgress rest
          (zipSuccessStep totalPages hasProgress page pngBytes st)

/-- Observable outcome of one exportAllPagesAsPngZip call: the reported
progress sequence, the archive entries, the FileSink filename when the
sink was invoked, and the returned boolean or thrown error. -/
structure ZipOutcome where
  progress : List Nat
  entries : List (JStr × Bytes)
  sinkInvoked : Bool
  filename : Option JStr
  result : Except ExportError Bool

/-- Embeds exportAllPagesAsPngZip (exportHandlers.ts lines 162 to 211):
run the loop over pages 1 to totalPages; throw emptyArchive when no page
was added; otherwise assemble the archive, report 95, invoke the FileSink
on baseName underscore pages dot zip, report 100 only on a saved result,
and return the FileSink's boolean. -/
def exportAllPagesAsPngZip (env : RasterEnv) (totalPages : Nat)
    (baseName : JStr) (hasProgress : Bool) : ZipOutcome :=
  match zipLoop env totalPages hasProgress (List.range' 1 totalPages) ⟨[], [], 0⟩ with
  | (st, some e) => ⟨st.progress, st.entries, false, none, .error e⟩
  | (st, none) =>
    if st.filesAdded = 0 then
      ⟨st.progress, st.entries, false, none, .error .emptyArchive⟩
    else
      let progress1 := if hasProgress then st.progress ++ [95] else st.progress
      let saved := env.exportFileSaved
      let progress2 := if saved && hasProgress then progress1 ++ [100] else progress1
      ⟨progress2, st.entries, true, some (baseName ++ "_pages.zip".data), .ok saved⟩

/-- C2 counterexample: with totalPages 5 and pages 2 and 4 failing to
render, no progress callback fires for iteration 2: the value 32, which
round of 2 over 5 times 80 would report, never appears in the progress
sequence, because the null-canvas skip happens before the progress
report; so progress does not fire for all 5 iterations. -/
theorem exportAllPagesAsPngZip_skips_progress_on_failed_page :
    32 ∉ (exportAllPagesAsPngZip
        ⟨fun p => if p == 2 || p == 4 then none else some p, fun c => some [c], true⟩
        5 "doc".data true).progress := by
  decide

/-- C2 amended: with totalPages 5 and pages 2 and 4 failing to render,
the archive contains exactly the 3 entries page1.png, page3.png and
page5.png, and progress callbacks fire only for the 3 successfully
rendered iterations (values 16, 48 and 80), followed by 95 at assembly
and 100 on save. -/
theorem exportAllPagesAsPngZip_partial_failure :
    ((exportAllPagesAsPngZip
        ⟨fun p => if p == 2 || p == 4 then none else some p, fun c => some [c], true⟩
        5 "doc".data true).entries.map Prod.fst
      = ["page1.png".data, "page3.png".data, "page5.png".data])
    ∧ (exportAllPagesAsPngZip
        ⟨fun p => if p == 2 || p == 4 then none else some p, fun c => some [c], true⟩
        5 "doc".data true).progress = [16, 48, 80, 95, 100] := by
  exact ⟨rfl, rfl⟩

/-- A success step appends exactly one entry with the page's name and
bumps filesAdded by one. -/
theorem zipSuccessStep_spec (totalPages : Nat) (hasProgress : Bool) (page : Nat)
    (pngBytes : Bytes) (st : ZipState) :
    (zipSuccessStep totalPages hasProgress page pngBytes st).entries
        = st.entries ++ [(pngEntryName page, pngBytes)]
    ∧ (zipSuccessStep totalPages hasProgress page pngBytes st).filesAdded
        = st.filesAdded + 1 := by
  unfold zipSuccessStep
  split <;> exact ⟨rfl, rfl⟩

/-- When every page in the list renders and encodes, the loop adds one
entry per page in order, counts them all, and reports no error. -/
theorem zipLoop_all_success (env : RasterEnv) (totalPages : Nat)
    (hasProgress : Bool) (pages : List Nat)
    (h : ∀ p ∈ pages, ∃ c b, env.getMergedCanvasForPage p = some c
        ∧ env.canvasToPngBlob c = some b) :
    ∀ st, ((zipLoop env totalPages hasProgress pages st).1.entries.map Prod.fst
            = st.entries.map Prod.fst ++ pages.map pngEntryName)
      ∧ (zipLoop env totalPages hasProgress pages st).1.filesAdded
          = st.filesAdded + pages.length
      ∧ (zipLoop env totalPages hasProgress pages st).2 = none := by
  induction pages with
  | nil => intro st; exact ⟨by simp [zipLoop], by simp [zipLoop], rfl⟩
  | cons p ps ih =>
    intro st
    obtain ⟨c, b, hc, hb⟩ := h p (List.mem_cons_self p ps)
    have hrest : ∀ q ∈ ps, ∃ c b, env.getMergedCanvasForPage q = some c
        ∧ env.canvasToPngBlob c = some b :=
      fun q hq => h q (List.mem_cons_of_mem p hq)
    have := (ih hrest) (zipSuccessStep totalPages hasProgress p b st)
    obtain ⟨hstep_entries, hstep_count⟩ := zipSuccessStep_spec totalPages hasProgress p b st
    rw [zipLoop, hc]
    dsimp only
    rw [hb]
    dsimp only
    refine ⟨?_, ?_, this.2.2⟩
    · rw [this.1, hstep_entries]
      simp
    · rw [this.2.1, hstep_count]
      simp only [List.length_cons]
      omega

/-- C3: for every totalPages of at least 1, if every page from 1 to
totalPages yields a canvas and every canvas encodes successfully, the
archive contains exactly totalPages entries named page1.png through
page-totalPages-.png, in order. -/
theorem exportAllPagesAsPngZip_all_success (env : RasterEnv) (totalPages : Nat)
    (baseName : JStr) (hasProgress : Bool) (htp : 1 ≤ totalPages)
    (hrender : ∀ p, 1 ≤ p → p ≤ totalPages → ∃ c b,
        env.getMergedCanvasForPage p = some c ∧ env.canvasToPngBlob c = some b) :
    (exportAllPagesAsPngZip env totalPages baseName hasProgress).entries.map Prod.fst
        = (List.range' 1 totalPages).map pngEntryName
    ∧ (exportAllPagesAsPngZip env totalPages baseName hasProgress).entries.length
        = totalPages := by
  have hall : ∀ p ∈ List.range' 1 totalPages, ∃ c b,
      env.getMergedCanvasForPage p = some c ∧ env.canvasToPngBlob c = some b := by
    intro p hp
    rw [List.mem_range'_1] at hp
    exact hrender p hp.1 (by omega)
  have hloop := zipLoop_all_success env totalPages hasProgress
    (List.range' 1 totalPages) hall ⟨[], [], 0⟩
  unfold exportAllPagesAsPngZip
  rcases hzip : zipLoop env totalPages hasProgress (List.range' 1 totalPages) ⟨[], [], 0⟩
    with ⟨st, err⟩
  rw [hzip] at hloop
  obtain ⟨hentries, hcount, herr⟩ := hloop
  simp only at hentries hcount herr
  subst herr
  have hcount0 : st.filesAdded ≠ 0 := by
    rw [hcount]
    simp only [List.length_range']
    omega
  simp only [hcount0, if_false, reduceIte]
  have hnames : st.entries.map Prod.fst = (List.range' 1 totalPages).map pngEntryName := by
    rw [hentries]; simp
  refine ⟨hnames, ?_⟩
  have := congrArg List.length hnames
  simpa using this

/-- Witness for exportAllPagesAsPngZip_all_success at a two-page document
where every page renders and encodes. -/
theorem exportAllPagesAsPngZip_all_success_witness :
    (exportAllPagesAsPngZip ⟨fun p => some p, fun c => some [c], true⟩ 2
        "doc".data true).entries.map Prod.fst
      = (List.range' 1 2).map pngEntryName
    ∧ (exportAllPagesAsPngZip ⟨fun p => some p, fun c => some [c], true⟩ 2
        "doc".data true).entries.length = 2 :=
  exportAllPagesAsPngZip_all_success ⟨fun p => some p, fun c => some [c], true⟩ 2
    "doc".data true (by decide) (fun p _ _ => ⟨p, [p], rfl, rfl⟩)

/-- When every page in the list fails to render, the loop leaves the
state untouched and reports no error. -/
theorem zipLoop_all_null (env : RasterEnv) (totalPages : Nat)
    (hasProgress : Bool) (pages : List Nat)
    (h : ∀ p ∈ pages, env.getMergedCanvasForPage p = none) :
    ∀ st, zipLoop env totalPages hasProgress pages st = (st, none) := by
  induction pages with
  | nil => intro st; rfl
  | cons p ps ih =>
    intro st
    rw [zipLoop, h p (List.mem_cons_self p ps)]
    exact ih (fun q hq => h q (List.mem_cons_of_mem p hq)) st

/-- C4: if every page from 1 to totalPages fails to render,
exportAllPagesAsPngZip throws the empty-archive error and the FileSink is
never invoked. -/
theorem exportAllPagesAsPngZip_empty_archive (env : RasterEnv) (totalPages : Nat)
    (baseName : JStr) (hasProgress : Bool)
    (hfail : ∀ p, 1 ≤ p → p ≤ totalPages → env.getMergedCanvasForPage p = none) :
    (exportAllPagesAsPngZip env totalPages baseName hasProgress).result
        = .error .emptyArchive
    ∧ (exportAllPagesAsPngZip env totalPages baseName hasProgress).sinkInvoked
        = false := by
  have hall : ∀ p ∈ List.range' 1 totalPages, env.getMergedCanvasForPage p = none := by
    intro p hp
    rw [List.mem_range'_1] at hp
    exact hfail p hp.1 (by omega)
  unfold exportAllPagesAsPngZip
  rw [zipLoop_all_null env totalPages hasProgress (List.range' 1 totalPages) hall]
  exact ⟨rfl, rfl⟩

/-- Witness for exportAllPagesAsPngZip_empty_archive at a three-page
document whose every page fails to render. -/
theorem exportAllPagesAsPngZip_empty_archive_witness :
    (exportAllPagesAsPngZip ⟨fun _ => none, fun c => some [c], true⟩ 3
        "doc".data true).result = .error .emptyArchive
    ∧ (exportAllPagesAsPngZip ⟨fun _ => none, fun c => some [c], true⟩ 3
        "doc".data true).sinkInvoked = false :=
  exportAllPagesAsPngZip_empty_archive ⟨fun _ => none, fun c => some [c], true⟩ 3
    "doc".data true (fun _ _ _ => rfl)

/-- The progress values reported by the loop come from an in-order
subsequence of the page list (the pages that rendered and encoded before
any abort), one value per successful page. -/
theorem zipLoop_progress_sublist (env : RasterEnv) (totalPages : Nat)
    (pages : List Nat) :
    ∀ st, ∃ qs : List Nat, qs.Sublist pages
      ∧ (zipLoop env totalPages true pages st).1.progress
          = st.progress ++ qs.map (fun p => progressValue p totalPages) := by
  induction pages with
  | nil => intro st; exact ⟨[], List.Sublist.refl [], by simp [zipLoop]⟩
  | cons p ps ih =>
    intro st
    cases hc : env.getMergedCanvasForPage p with
    | none =>
      obtain ⟨qs, hsub, hprog⟩ := ih st
      refine ⟨qs, hsub.cons p, ?_⟩
      rw [zipLoop, hc]
      exact hprog
    | some c =>
      cases hb : env.canvasToPngBlob c with
      | none =>
        refine ⟨[], List.nil_sublist _, ?_⟩
        rw [zipLoop, hc]
        dsimp only
        rw [hb]
        simp
      | some b =>
        obtain ⟨qs, hsub, hprog⟩ := ih (zipSuccessStep totalPages true p b st)
        refine ⟨p :: qs, hsub.cons₂ p, ?_⟩
        rw [zipLoop, hc]
        dsimp only
        rw [hb]
        dsimp only
        rw [hprog]
        have hstep : (zipSuccessStep totalPages true p b st).progress
            = st.progress ++ [progressValue p totalPages] := rfl
        rw [hstep]
        simp

/-- Loop progress values never exceed the 80 percent cap. -/
theorem progressValue_le_80 (page totalPages : Nat) (h1 : 1 ≤ totalPages)
    (h2 : page ≤ totalPages) : progressValue page totalPages ≤ 80 := by
  unfold progressValue
  have hle : 160 * page + totalPages ≤ 161 * totalPages := by omega
  have h3 : (161 * totalPages) / (2 * totalPages) < 81 := by
    rw [Nat.div_lt_iff_lt_mul (by omega)]
    omega
  have h4 : (160 * page + totalPages) / (2 * totalPages)
      ≤ (161 * totalPages) / (2 * totalPages) := Nat.div_le_div_right hle
  omega

/-- Loop progress values are monotone in the page number. -/
theorem progressValue_mono (p q totalPages : Nat) (h : p ≤ q) :
    progressValue p totalPages ≤ progressValue q totalPages := by
  unfold progressValue
  apply Nat.div_le_div_right
  omega

/-- C5: with a progress callback present, the progress values reported by
exportAllPagesAsPngZip are non-decreasing; the sequence ends at 100 if
and only if the FileSink reports success; and on FileSink cancellation
the function returns false and the last reported progress is 95. -/
theorem exportAllPagesAsPngZip_progress_contract (env : RasterEnv)
    (totalPages : Nat) (baseName : JStr) :
    ((exportAllPagesAsPngZip env totalPages baseName true).progress).Pairwise (· ≤ ·)
    ∧ ((exportAllPagesAsPngZip env totalPages baseName true).progress.getLast?
          = some 100
        ↔ (exportAllPagesAsPngZip env totalPages baseName true).result
          = Except.ok true)
    ∧ ((exportAllPagesAsPngZip env totalPages baseName true).sinkInvoked = true →
        env.exportFileSaved = false →
        (exportAllPagesAsPngZip env totalPages baseName true).result
            = Except.ok false
          ∧ (exportAllPagesAsPngZip env totalPages baseName true).progress.getLast?
            = some 95) := by
  obtain ⟨qs, hsub, hprog⟩ := zipLoop_progress_sublist env totalPages
    (List.range' 1 totalPages) ⟨[], [], 0⟩
  have hmem : ∀ q ∈ qs, 1 ≤ q ∧ q ≤ totalPages := by
    intro q hq
    have hq2 := hsub.subset hq
    rw [List.mem_range'_1] at hq2
    omega
  have hqs_sorted : qs.Pairwise (· < ·) :=
    List.Pairwise.sublist hsub (List.pairwise_lt_range' 1 totalPages)
  have hloopP : (qs.map (fun p => progressValue p totalPages)).Pairwise (· ≤ ·) :=
    List.Pairwise.map _ (fun a b hab => progressValue_mono a b totalPages
      (Nat.le_of_lt hab)) hqs_sorted
  have hloop_le80 : ∀ x ∈ qs.map (fun p => progressValue p totalPages), x ≤ 80 := by
    intro x hx
    rw [List.mem_map] at hx
    obtain ⟨q, hq, rfl⟩ := hx
    exact progressValue_le_80 q totalPages (by have := hmem q hq; omega) (hmem q hq).2
  have hno100 : (qs.map (fun p => progressValue p totalPages)).getLast? ≠ some 100 := by
    intro hlast
    have := hloop_le80 100 (List.mem_of_getLast?_eq_some hlast)
    omega
  have hP95 : (qs.map (fun p => progressValue p totalPages) ++ [95]).Pairwise (· ≤ ·) := by
    rw [List.pairwise_append]
    refine ⟨hloopP, by simp, ?_⟩
    intro a ha b hb
    rw [List.mem_singleton] at hb
    subst hb
    have := hloop_le80 a ha
    omega
  have hP100 : ((qs.map (fun p => progressValue p totalPages) ++ [95]) ++ [100]).Pairwise (· ≤ ·) := by
    rw [List.pairwise_append]
    refine ⟨hP95, by simp, ?_⟩
    intro a ha b hb
    rw [List.mem_singleton] at hb
    subst hb
    rw [List.mem_append] at ha
    rcases ha with h | h
    · have := hloop_le80 a h
      omega
    · rw [List.mem_singleton] at h
      omega
  unfold exportAllPagesAsPngZip
  rcases hzip : zipLoop env totalPages true (List.range' 1 totalPages) ⟨[], [], 0⟩
    with ⟨st, err⟩
  rw [hzip] at hprog
  dsimp only at hprog
  rw [List.nil_append] at hprog
  cases err with
  | some e =>
    dsimp only
    rw [hprog]
    refine ⟨hloopP, ?_, ?_⟩
    · constructor
      · intro h
        exact absurd h hno100
      · intro h
        exact absurd h (by simp)
    · intro h
      exact absurd h (by simp)
  | none =>
    dsimp only
    by_cases hfa : st.filesAdded = 0
    · rw [if_pos hfa]
      dsimp only
      rw [hprog]
      refine ⟨hloopP, ?_, ?_⟩
      · constructor
        · intro h
          exact absurd h hno100
        · intro h
          exact absurd h (by simp)
      · intro h
        exact absurd h (by simp)
    · rw [if_neg hfa]
      cases hsaved : env.exportFileSaved with
      | true =>
        simp only [hsaved, Bool.true_and, if_true, reduceIte]
        rw [hprog]
        refine ⟨hP100, ?_, ?_⟩
        · constructor
          · intro _
            trivial
          · intro _
            exact List.getLast?_concat _
        · intro hsink hcancel
          exact absurd hcancel (by simp)
      | false =>
        simp only [hsaved, Bool.false_and, Bool.false_eq_true, if_false, reduceIte]
        rw [hprog]
        refine ⟨hP95, ?_, ?_⟩
        · constructor
          · intro h
            rw [List.getLast?_concat] at h
            exact absurd h (by simp)
          · intro h
            exact absurd h (by simp)
        · intro hsink hcancel
          exact ⟨trivial, List.getLast?_concat _⟩

/-- Witness for exportAllPagesAsPngZip_progress_contract at a two-page
document where every page renders and the FileSink reports
cancellation. -/
theorem exportAllPagesAsPngZip_progress_contract_witness :
    ((exportAllPagesAsPngZip ⟨fun p => some p, fun c => some [c], false⟩ 2
        "doc".data true).progress).Pairwise (· ≤ ·)
    ∧ ((exportAllPagesAsPngZip ⟨fun p => some p, fun c => some [c], false⟩ 2
          "doc".data true).progress.getLast? = some 100
        ↔ (exportAllPagesAsPngZip ⟨fun p => some p, fun c => some [c], false⟩ 2
          "doc".data true).result = Except.ok true)
    ∧ ((exportAllPagesAsPngZip ⟨fun p => some p, fun c => some [c], false⟩ 2
          "doc".data true).sinkInvoked = true →
        (⟨fun p => some p, fun c => some [c], false⟩ : RasterEnv).exportFileSaved = false →
        (exportAllPagesAsPngZip ⟨fun p => some p, fun c => some [c], false⟩ 2
            "doc".data true).result = Except.ok false
          ∧ (exportAllPagesAsPngZip ⟨fun p => some p, fun c => some [c], false⟩ 2
            "doc".data true).progress.getLast? = some 95) :=
  exportAllPagesAsPngZip_progress_contract ⟨fun p => some p, fun c => some [c], false⟩
    2 "doc".data
